import Mathlib

/-!
Verification development for the `asyncwhois` WHOIS facade
(`asyncwhois/pywhois.py`).

The Python module is shallowly embedded:

* Python strings are `List Char` (`Str` below), so that every operation is
  executable and kernel-reducible.
* `str.split('.')` is embedded as `splitOnDot`, faithful to CPython's
  semantics for a one-character separator: every occurrence of `'.'`
  separates, empty pieces are kept, and `"".split('.') == [""]`.
* The module-level regular expression `IPV4_OR_V6` is embedded as a term of
  an explicit regex AST (`Regex`) together with an all-results backtracking
  matcher (`mmatch`), and `re.match` truthiness becomes `ipMatch`.
* The external collaborators (`tldextract.extract`, reverse DNS) and the
  repository modules not present here (`WhoIsQuery`, `AsyncWhoIsQuery`,
  `WhoIsParser`, `errors.WhoIsQueryError`) are abstracted into an
  environment record `Env`; exceptions become `Except` values.
* The class methods `_PyWhoIs._from_url` / `_PyWhoIs._aio_from_url` become
  `from_url` / `aio_from_url`, translated control-flow construct by
  control-flow construct.
-/

/-- Python strings, embedded as lists of characters. -/
abbrev Str := List Char

/-- CPython's `s.split('.')` for a string `s`: split on every occurrence of
`'.'`, keeping empty pieces; the empty string yields `[""]`. -/
def splitOnDot : Str → List Str
  | [] => [[]]
  | c :: cs =>
    if c = '.' then [] :: splitOnDot cs
    else
      match splitOnDot cs with
      | [] => [[c]]
      | p :: ps => (c :: p) :: ps

/-- Lines 88-91 of `pywhois.py`:

    tld = extract_result.suffix
    if len(tld.split('.')) > 1:
        tld = tld.split('.')[-1]

The effective suffix used as the server-directory key. -/
def effectiveTld (suffix : Str) : Str :=
  if 1 < (splitOnDot suffix).length then (splitOnDot suffix).getLastD []
  else suffix

/-!
## Regular expressions

A small regex AST sufficient for the module-level pattern `IPV4_OR_V6` of
`pywhois.py`.  Character classes are predicates (`cls`), `dollar` is the
Python `$` assertion (it matches at the end of the subject string, or just
before a newline that is the last character of the subject string);
`re.match` anchors the pattern at position 0, so `^` needs no constructor.
-/

/-- Regex abstract syntax. -/
inductive Regex where
  | eps : Regex
  | cls : (Char → Bool) → Regex
  | comp : Regex → Regex → Regex
  | alt : Regex → Regex → Regex
  | star : Regex → Regex
  | dollar : Regex

/-- Iterate a one-step matcher `f` zero or more times (the `star` case of
`mmatch`).  Results are the possible unconsumed remainders.  Only strictly
consuming iterations recurse, which matches the semantics of `r*` on a
finite string; the `Nat` argument is a structural bound on the recursion
and is always invoked with at least the length of the string, which makes
it inessential (`starIterB_bound_irrel` below). -/
def starIterB (f : Str → List Str) : Nat → Str → List Str
  | 0, s => [s]
  | n + 1, s =>
    s :: (((f s).filter (fun t => t.length < s.length)).flatMap
      (starIterB f n))

/-- All-results backtracking matcher: `mmatch r s` is the list of suffixes
`rest` of `s` such that `r` matches the part of `s` before `rest` (with the
`dollar` assertion evaluated against the full remaining input).  Python's
`re.match(r, s)` is truthy iff this list is non-empty. -/
def mmatch : Regex → Str → List Str
  | .eps, s => [s]
  | .cls _, [] => []
  | .cls p, c :: s => if p c then [s] else []
  | .comp r1 r2, s => (mmatch r1 s).flatMap (mmatch r2)
  | .alt r1 r2, s => mmatch r1 s ++ mmatch r2 s
  | .star r, s => starIterB (mmatch r) s.length s
  | .dollar, s => if s = [] ∨ s = ['\n'] then [s] else []

/-- Sequencing a list of regexes. -/
def rseq (l : List Regex) : Regex := l.foldr .comp .eps

/-- Alternation over a non-empty list of regexes (`[]` yields a
never-matching class, which never occurs in the pattern below). -/
def raltl : List Regex → Regex
  | [] => .cls (fun _ => false)
  | [r] => r
  | r :: rs => .alt r (raltl rs)

/-- A single literal character. -/
def rchar (c : Char) : Regex := .cls (fun d => d = c)

/-- `r?`. -/
def ropt (r : Regex) : Regex := .alt r .eps

/-- `r{n}`: exactly `n` copies of `r`. -/
def rrep (r : Regex) : Nat → Regex
  | 0 => .eps
  | n + 1 => .comp r (rrep r n)

/-- `r{m,n}`: between `m` and `n` copies, written as `r{m}` followed by
`n - m` optional copies. -/
def rrepRange (r : Regex) (m n : Nat) : Regex :=
  .comp (rrep r m) (rrep (ropt r) (n - m))

/-- A character range `[lo-hi]`. -/
def rcrange (lo hi : Char) : Regex := .cls (fun c => lo ≤ c && c ≤ hi)

/-- `[0-9]` and `\d` (the pattern is ASCII-only in the digit positions). -/
def rdigit : Regex := .cls Char.isDigit

/-- `[0-9A-Fa-f]`. -/
def rhex : Regex :=
  .cls (fun c => c.isDigit || ('a' ≤ c && c ≤ 'f') || ('A' ≤ c && c ≤ 'F'))

/-- The characters matched by Python's `\s` on ASCII input:
space, tab, newline, carriage return, vertical tab, form feed.
(Python's `\s` additionally matches non-ASCII Unicode whitespace; the
pattern below is only ever applied to the extracted domain portion, and
the surrounding-whitespace role of `\s*` is unchanged by that
restriction.) -/
def isPySpace (c : Char) : Bool :=
  c = ' ' || c = '\t' || c = '\n' || c = '\r' || c = '\x0b' || c = '\x0c'

/-- `\s`. -/
def rspace : Regex := .cls isPySpace

/-- `\s*`. -/
def wsStar : Regex := .star rspace

/-- `.`: any character but a newline (no `re.DOTALL`). -/
def rdotAny : Regex := .cls (fun c => c ≠ '\n')

/-- A regex with no `$` assertion in it. -/
def anchorFree : Regex → Bool
  | .eps => true
  | .cls _ => true
  | .comp r1 r2 => anchorFree r1 && anchorFree r2
  | .alt r1 r2 => anchorFree r1 && anchorFree r2
  | .star r => anchorFree r
  | .dollar => false

/-!
### The `IPV4_OR_V6` pattern

Line 39 of `pywhois.py`.  Writing `H` for `[0-9A-Fa-f]{1,4}` and `V4` for
the dotted quad embedded in the IPv6 alternatives, the pattern is

    ( ^\s* (octA\.){3} octA \s*$ )
  | ( ^\s* ( (H:){7}(H|:)
           | (H:){6}(:H|V4|:)
           | (H:){5}((:H){1,2}|:V4|:)
           | (H:){4}((:H){1,3}|(:H)?:V4|:)
           | (H:){3}((:H){1,4}|(:H){0,2}:V4|:)
           | (H:){2}((:H){1,5}|(:H){0,3}:V4|:)
           | (H:){1}((:H){1,6}|(:H){0,4}:V4|:)
           | :((:H){1,7}|(:H){0,5}:V4|:) ) (%.+)? \s*$ )

with `octA = [0-9]|[1-9][0-9]|1[0-9]{2}|2[0-4][0-9]|25[0-5]` and
`V4 = octB(\.octB){3}`, `octB = 25[0-5]|2[0-4]\d|1\d\d|[1-9]?\d`.
-/

/-- `[0-9]|[1-9][0-9]|1[0-9]{2}|2[0-4][0-9]|25[0-5]` — an IPv4 octet in the
top-level IPv4 alternative. -/
def octA : Regex := raltl [rdigit,
  rseq [rcrange '1' '9', rdigit],
  rseq [rchar '1', rdigit, rdigit],
  rseq [rchar '2', rcrange '0' '4', rdigit],
  rseq [rchar '2', rchar '5', rcrange '0' '5']]

/-- `(octA\.){3}octA` — the top-level IPv4 dotted quad. -/
def ipv4Top : Regex := rseq [rrep (rseq [octA, rchar '.']) 3, octA]

/-- `25[0-5]|2[0-4]\d|1\d\d|[1-9]?\d` — an IPv4 octet as written inside the
IPv6 alternatives. -/
def octB : Regex := raltl [
  rseq [rchar '2', rchar '5', rcrange '0' '5'],
  rseq [rchar '2', rcrange '0' '4', rdigit],
  rseq [rchar '1', rdigit, rdigit],
  rseq [ropt (rcrange '1' '9'), rdigit]]

/-- `octB(\.octB){3}` — the dotted quad embedded in the IPv6 alternatives. -/
def v4inv6 : Regex := rseq [octB, rrep (rseq [rchar '.', octB]) 3]

/-- `[0-9A-Fa-f]{1,4}` — one hexadecimal group. -/
def hquad : Regex := rrepRange rhex 1 4

/-- `[0-9A-Fa-f]{1,4}:`. -/
def hcolon : Regex := rseq [hquad, rchar ':']

/-- `:[0-9A-Fa-f]{1,4}`. -/
def colonH : Regex := rseq [rchar ':', hquad]

/-- The eight IPv6 alternatives of the pattern. -/
def ipv6Core : Regex := raltl [
  rseq [rrep hcolon 7, raltl [hquad, rchar ':']],
  rseq [rrep hcolon 6, raltl [colonH, v4inv6, rchar ':']],
  rseq [rrep hcolon 5, raltl [rrepRange colonH 1 2,
    rseq [rchar ':', v4inv6], rchar ':']],
  rseq [rrep hcolon 4, raltl [rrepRange colonH 1 3,
    rseq [ropt colonH, rchar ':', v4inv6], rchar ':']],
  rseq [rrep hcolon 3, raltl [rrepRange colonH 1 4,
    rseq [rrepRange colonH 0 2, rchar ':', v4inv6], rchar ':']],
  rseq [rrep hcolon 2, raltl [rrepRange colonH 1 5,
    rseq [rrepRange colonH 0 3, rchar ':', v4inv6], rchar ':']],
  rseq [rrep hcolon 1, raltl [rrepRange colonH 1 6,
    rseq [rrepRange colonH 0 4, rchar ':', v4inv6], rchar ':']],
  rseq [rchar ':', raltl [rrepRange colonH 1 7,
    rseq [rrepRange colonH 0 5, rchar ':', v4inv6], rchar ':']]]

/-- `(%.+)?` — the optional IPv6 zone suffix. -/
def zoneOpt : Regex := ropt (rseq [rchar '%', rdotAny, .star rdotAny])

/-- The module-level pattern `IPV4_OR_V6` (line 39 of `pywhois.py`). -/
def IPV4_OR_V6 : Regex :=
  .alt (rseq [wsStar, ipv4Top, wsStar, .dollar])
       (rseq [wsStar, ipv6Core, zoneOpt, wsStar, .dollar])

/-- Truthiness of `IPV4_OR_V6.match(s)` (line 84 / 105 of `pywhois.py`):
`re.match` anchors at position 0 and succeeds iff some prefix of `s` is in
the pattern's language. -/
def ipMatch (s : Str) : Bool := !(mmatch IPV4_OR_V6 s).isEmpty

/-!
## The facade model

`_PyWhoIs` orchestrates four collaborators:

* `tldextract.extract` (external library) — `Env.extract`;
* reverse DNS: `socket.gethostbyaddr` in blocking mode and
  `aiodns.DNSResolver.gethostbyaddr` in non-blocking mode (external
  libraries, consumed through the narrow "hostname or failure" interface
  of the spec) — `Env.hostFromIp` / `Env.aioHostFromIp`;
* `WhoIsParser` (repository module not under `src/`) — `Env.mkParser`;
* `WhoIsQuery` / `AsyncWhoIsQuery` (repository module not under `src/`) —
  `Env.runQuery` / `Env.aioRunQuery`.

Exceptions are modelled as `Except` values of type `WError`.
-/

/-- The result record of `tldextract.extract`. -/
structure ExtractResult where
  subdomain : Str
  domain : Str
  suffix : Str

/-- Error values a lookup can surface.  `whoIsQueryError` is the
repository's `errors.WhoIsQueryError` with its message; the remaining
kinds are modelled from the spec: `unsupportedSuffix` for a directory miss
(spec 4.2), `connectionError` and `timeoutError` for the query executor
(spec 4.3). -/
inductive WError where
  | whoIsQueryError (msg : Str)
  | unsupportedSuffix (tld : Str)
  | connectionError (msg : Str)
  | timeoutError

/-- A parsed record: field name to ordered values (spec 3, `ParsedRecord`). -/
abbrev ParsedRecord := List (Str × List Str)

/-- Modelled from the spec: the part of `WhoIsParser` (repository module
`asyncwhois/parser.py`, absent from `src/`) that `pywhois.py` uses — a
WHOIS server host for the suffix (`parser._parser.server`, spec 4.2
`ServerEntry`) and a total parsing function (`parser.parse`, spec 4.4:
parsing never fails). -/
structure ParserCore where
  server : Str
  parse : Str → ParsedRecord

/-- The `WhoIsQuery` object as observed by `pywhois.py`: its constructor
arguments and its `query_output` attribute. -/
structure WhoIsQueryObj where
  domain_and_tld : Str
  server : Str
  timeout : Nat
  query_output : Str

/-- The `WhoIsParser` object as observed by `pywhois.py`: the suffix it
was constructed for, its server, and its `parser_output` after `parse`. -/
structure WhoIsParserObj where
  tld : Str
  server : Str
  parser_output : ParsedRecord

/-- The `_PyWhoIs` instance state: `__init__` sets `__query` and
`__parser` to `None` (lines 44-46), the factories overwrite them. -/
structure PyWhoIs where
  query : Option WhoIsQueryObj
  parser : Option WhoIsParserObj

/-- `_PyWhoIs()` — direct construction (lines 44-46). -/
def pywhoisInit : PyWhoIs := { query := none, parser := none }

/-- Python raises `AttributeError` when an attribute is read off `None`. -/
inductive PyAttrError where
  | attributeError

/-- The `query_output` property (lines 75-77): reads
`self.__query.query_output`, an `AttributeError` when `__query is None`. -/
def PyWhoIs.query_output (w : PyWhoIs) : Except PyAttrError Str :=
  match w.query with
  | some q => .ok q.query_output
  | none => .error .attributeError

/-- The `parser_output` property (lines 71-73): reads
`self.__parser.parser_output`, an `AttributeError` when `__parser is
None`. -/
def PyWhoIs.parser_output (w : PyWhoIs) : Except PyAttrError ParsedRecord :=
  match w.parser with
  | some p => .ok p.parser_output
  | none => .error .attributeError

/-- The collaborators of `_PyWhoIs`, as functions.  `hostFromIp ip = none`
models the reverse-DNS library signalling failure (`socket.gaierror` /
`aiodns.error.DNSError`); `mkParser` and `runQuery` return the error that
`WhoIsParser(tld)` resp. `WhoIsQuery(...)`/`AsyncWhoIsQuery.create(...)`
would raise, or their result. -/
structure Env where
  extract : Str → ExtractResult
  hostFromIp : Str → Option Str
  aioHostFromIp : Str → Option Str
  mkParser : Str → Except WError ParserCore
  runQuery : Str → Str → Nat → Except WError Str
  aioRunQuery : Str → Str → Nat → Except WError Str

/-- The f-string `f'Could not resolve {ip_address}'` (lines 59 and 69). -/
def couldNotResolve (ip : Str) : Str := "Could not resolve ".data ++ ip

/-- `_get_hostname_from_ip` (lines 53-59): returns the host from
`socket.gethostbyaddr`, and turns a resolution failure into
`WhoIsQueryError(f'Could not resolve {ip_address}')`. -/
def get_hostname_from_ip (hostFromIp : Str → Option Str) (ip_address : Str) :
    Except WError Str :=
  match hostFromIp ip_address with
  | some host => .ok host
  | none => .error (.whoIsQueryError (couldNotResolve ip_address))

/-- `_aio_get_hostname_from_ip` (lines 61-69): same contract through the
`aiodns` resolver. -/
def aio_get_hostname_from_ip (aioHostFromIp : Str → Option Str)
    (ip_address : Str) : Except WError Str :=
  match aioHostFromIp ip_address with
  | some host => .ok host
  | none => .error (.whoIsQueryError (couldNotResolve ip_address))

/-- `_PyWhoIs._from_url` (lines 79-98), with exceptions as `Except`:

    pywhois = cls()
    extract_result = tldextract.extract(url)
    if IPV4_OR_V6.match(extract_result.domain):
        host = pywhois._get_hostname_from_ip(extract_result.domain)
        extract_result = tldextract.extract(host)
    tld = extract_result.suffix
    if len(tld.split('.')) > 1:
        tld = tld.split('.')[-1]
    domain_and_tld = extract_result.domain + '.' + tld
    parser = WhoIsParser(tld)
    query = WhoIsQuery(domain_and_tld, parser._parser.server, timeout)
    parser.parse(query.query_output)
    pywhois.__query = query
    pywhois.__parser = parser
    return pywhois
-/
def from_url (env : Env) (url : Str) (timeout : Nat) :
    Except WError PyWhoIs :=
  let extract_result := env.extract url
  let resolved : Except WError ExtractResult :=
    if ipMatch extract_result.domain then
      match get_hostname_from_ip env.hostFromIp extract_result.domain with
      | .ok host => .ok (env.extract host)
      | .error e => .error e
    else .ok extract_result
  match resolved with
  | .error e => .error e
  | .ok extract_result =>
    let tld := effectiveTld extract_result.suffix
    let domain_and_tld := extract_result.domain ++ '.' :: tld
    match env.mkParser tld with
    | .error e => .error e
    | .ok core =>
      match env.runQuery domain_and_tld core.server timeout with
      | .error e => .error e
      | .ok raw =>
        .ok { query := some ⟨domain_and_tld, core.server, timeout, raw⟩,
              parser := some ⟨tld, core.server, core.parse raw⟩ }

/-- `_PyWhoIs._aio_from_url` (lines 100-119): same steps through the
suspending collaborators (`_aio_get_hostname_from_ip`,
`AsyncWhoIsQuery.create`). -/
def aio_from_url (env : Env) (url : Str) (timeout : Nat) :
    Except WError PyWhoIs :=
  let extract_result := env.extract url
  let resolved : Except WError ExtractResult :=
    if ipMatch extract_result.domain then
      match aio_get_hostname_from_ip env.aioHostFromIp extract_result.domain with
      | .ok host => .ok (env.extract host)
      | .error e => .error e
    else .ok extract_result
  match resolved with
  | .error e => .error e
  | .ok extract_result =>
    let tld := effectiveTld extract_result.suffix
    let domain_and_tld := extract_result.domain ++ '.' :: tld
    match env.mkParser tld with
    | .error e => .error e
    | .ok core =>
      match env.aioRunQuery domain_and_tld core.server timeout with
      | .error e => .error e
      | .ok raw =>
        .ok { query := some ⟨domain_and_tld, core.server, timeout, raw⟩,
              parser := some ⟨tld, core.server, core.parse raw⟩ }

/-- Swap the suspending collaborators into the blocking slots. -/
def Env.swapAio (env : Env) : Env :=
  { env with hostFromIp := env.aioHostFromIp, runQuery := env.aioRunQuery }

/-- The extraction result the factory proceeds with after the IP-literal
step, for a given suffix-extraction and reverse-DNS collaborator: either
the input's own extraction (domain not an IP literal), or the extraction
of the reverse-resolved hostname. -/
def resolvedExtractW (extract : Str → ExtractResult)
    (resolver : Str → Option Str) (url : Str) (er : ExtractResult) : Prop :=
  (ipMatch (extract url).domain = false ∧ er = extract url) ∨
  (ipMatch (extract url).domain = true ∧
    ∃ host, resolver (extract url).domain = some host ∧ er = extract host)

/-!
## Concrete environments for witnesses

Small executable environments whose collaborators are constant functions;
used to instantiate the theorems below at concrete inputs.
-/

/-- A witness environment: extraction yields domain `"q"` (not an IP
literal) and the compound suffix `"co.uk"`; every collaborator succeeds. -/
def wenv : Env :=
  { extract := fun _ => ⟨[], ['q'], ['c', 'o', '.', 'u', 'k']⟩,
    hostFromIp := fun _ => some ['h'],
    aioHostFromIp := fun _ => some ['h'],
    mkParser := fun _ => .ok ⟨['s'], fun _ => []⟩,
    runQuery := fun _ _ _ => .ok ['r'],
    aioRunQuery := fun _ _ _ => .ok ['r'] }

/-- The result `from_url wenv [] 5` evaluates to. -/
def wres : PyWhoIs :=
  { query := some ⟨['q', '.', 'u', 'k'], ['s'], 5, ['r']⟩,
    parser := some ⟨['u', 'k'], ['s'], []⟩ }

/-- A witness environment whose extracted domain is the IPv6 literal
`"::"` and whose reverse DNS always fails. -/
def wenvIp : Env :=
  { extract := fun _ => ⟨[], [':', ':'], ['c', 'o', 'm']⟩,
    hostFromIp := fun _ => none,
    aioHostFromIp := fun _ => none,
    mkParser := fun _ => .ok ⟨['s'], fun _ => []⟩,
    runQuery := fun _ _ _ => .ok ['r'],
    aioRunQuery := fun _ _ _ => .ok ['r'] }

/-- A witness environment whose extracted domain is the IPv6 literal
`"::"` and whose reverse DNS resolves to `"h"`, which extracts to domain
`"d"` with suffix `"net"`. -/
def wenvIp2 : Env :=
  { extract := fun s =>
      if s = ['h'] then ⟨[], ['d'], ['n', 'e', 't']⟩
      else ⟨[], [':', ':'], ['c', 'o', 'm']⟩,
    hostFromIp := fun _ => some ['h'],
    aioHostFromIp := fun _ => some ['h'],
    mkParser := fun _ => .ok ⟨['s'], fun _ => []⟩,
    runQuery := fun _ _ _ => .ok ['r'],
    aioRunQuery := fun _ _ _ => .ok ['r'] }

/-- The result `from_url wenvIp2 [] 5` evaluates to. -/
def wresIp : PyWhoIs :=
  { query := some ⟨['d', '.', 'n', 'e', 't'], ['s'], 5, ['r']⟩,
    parser := some ⟨['n', 'e', 't'], ['s'], []⟩ }

/-- A witness environment whose directory construction fails. -/
def wenvMkErr : Env :=
  { extract := fun _ => ⟨[], ['q'], ['c', 'o', 'm']⟩,
    hostFromIp := fun _ => none,
    aioHostFromIp := fun _ => none,
    mkParser := fun _ => .error (.unsupportedSuffix ['c', 'o', 'm']),
    runQuery := fun _ _ _ => .ok ['r'],
    aioRunQuery := fun _ _ _ => .ok ['r'] }

/-- A witness environment whose query execution fails with a timeout. -/
def wenvQErr : Env :=
  { extract := fun _ => ⟨[], ['q'], ['c', 'o', 'm']⟩,
    hostFromIp := fun _ => none,
    aioHostFromIp := fun _ => none,
    mkParser := fun _ => .ok ⟨['s'], fun _ => []⟩,
    runQuery := fun _ _ _ => .error .timeoutError,
    aioRunQuery := fun _ _ _ => .error .timeoutError }

/-- A witness environment whose extraction yields an empty suffix. -/
def wenvEmpty : Env :=
  { extract := fun _ => ⟨[], ['q'], []⟩,
    hostFromIp := fun _ => none,
    aioHostFromIp := fun _ => none,
    mkParser := fun _ => .ok ⟨['s'], fun _ => []⟩,
    runQuery := fun _ _ _ => .ok ['r'],
    aioRunQuery := fun _ _ _ => .ok ['r'] }

/-- `str.split` never returns an empty list. -/
theorem splitOnDot_ne_nil (s : Str) : splitOnDot s ≠ [] := by
  cases s with
  | nil => simp [splitOnDot]
  | cons c cs =>
    simp only [splitOnDot]
    split
    · simp
    · split <;> simp

/-- If `s.split('.')` has a single piece then that piece is `s` itself
(there was no dot to split on). -/
theorem splitOnDot_length_one (s : Str) (h : (splitOnDot s).length = 1) :
    splitOnDot s = [s] := by
  induction s with
  | nil => simp [splitOnDot]
  | cons c cs ih =>
    simp only [splitOnDot] at h ⊢
    split at h
    · exfalso
      have := splitOnDot_ne_nil cs
      simp only [List.length_cons] at h
      exact this (List.length_eq_zero.mp (by omega))
    · rename_i hc
      rcases hs : splitOnDot cs with _ | ⟨p, ps⟩
      · exact absurd hs (splitOnDot_ne_nil cs)
      · rw [hs] at h
        simp only [List.length_cons] at h
        have hps : ps = [] := List.length_eq_zero.mp (by omega)
        subst hps
        have := ih (by rw [hs]; rfl)
        rw [hs] at this
        have hp : p = cs := by simpa using this
        subst hp
        simp [hs, hc]

/-!
## Matcher theory

General lemmas about `mmatch`, used to prove that the `IPV4_OR_V6` test is
a full-string match.
-/

/-- `flatMap` only depends on the function's values on members. -/
theorem flatMapCongrMem {α β : Type _} {l : List α} {f g : α → List β}
    (h : ∀ a ∈ l, f a = g a) : l.flatMap f = l.flatMap g := by
  induction l with
  | nil => rfl
  | cons x xs ih =>
    simp only [List.flatMap_cons]
    rw [h x (List.mem_cons_self x xs),
      ih fun a ha => h a (List.mem_cons_of_mem x ha)]

/-- Iterating any matcher on the empty string yields only the empty
remainder. -/
theorem starIterB_nil (f : Str → List Str) (n : Nat) :
    starIterB f n [] = [[]] := by
  cases n with
  | zero => rfl
  | succ n => simp [starIterB]

/-- The bound of `starIterB` is irrelevant once it dominates the string
length. -/
theorem starIterB_bound_irrel (f : Str → List Str) :
    ∀ n m s, s.length ≤ n → s.length ≤ m →
      starIterB f n s = starIterB f m s := by
  intro n
  induction n with
  | zero =>
    intro m s hs _
    have h : s = [] := List.length_eq_zero.mp (Nat.le_zero.mp hs)
    subst h
    rw [starIterB_nil, starIterB_nil]
  | succ n ih =>
    intro m s hs hm
    cases m with
    | zero =>
      have h : s = [] := List.length_eq_zero.mp (Nat.le_zero.mp hm)
      subst h
      rw [starIterB_nil, starIterB_nil]
    | succ m =>
      simp only [starIterB]
      congr 1
      apply flatMapCongrMem
      intro t ht
      have h2 := List.mem_filter.mp ht
      have hlt : t.length < s.length := by simpa using h2.2
      exact ih m t (by omega) (by omega)

/-- Unfolding of star matching: a remainder of `r*` on `s` is `s` itself,
or comes from a strictly consuming step of `r` followed by `r*`. -/
theorem mem_star_iff {r : Regex} {s rest : Str} :
    rest ∈ mmatch (.star r) s ↔
      rest = s ∨ ∃ mid, mid ∈ mmatch r s ∧ mid.length < s.length ∧
        rest ∈ mmatch (.star r) mid := by
  show rest ∈ starIterB (mmatch r) s.length s ↔ _
  cases hn : s.length with
  | zero =>
    have hs : s = [] := List.length_eq_zero.mp hn
    subst hs
    simp [starIterB]
  | succ n =>
    constructor
    · intro h
      simp only [starIterB, List.mem_cons] at h
      rcases h with rfl | h
      · exact Or.inl rfl
      · rw [List.mem_flatMap] at h
        obtain ⟨mid, hmid, hrest⟩ := h
        have h2 := List.mem_filter.mp hmid
        have hlt : mid.length < s.length := by
          have := h2.2
          simp only [decide_eq_true_eq] at this
          omega
        refine Or.inr ⟨mid, h2.1, by omega, ?_⟩
        show rest ∈ starIterB (mmatch r) mid.length mid
        rw [starIterB_bound_irrel (mmatch r) mid.length n mid le_rfl
          (by omega)]
        exact hrest
    · intro h
      rcases h with rfl | ⟨mid, hmid, hlt, hrest⟩
      · simp [starIterB]
      · simp only [starIterB, List.mem_cons]
        refine Or.inr ?_
        rw [List.mem_flatMap]
        refine ⟨mid, List.mem_filter.mpr ⟨hmid, by
          simp only [decide_eq_true_eq]; omega⟩, ?_⟩
        rw [starIterB_bound_irrel (mmatch r) n mid.length mid (by omega)
          le_rfl]
        exact hrest

/-- Every remainder produced by the matcher is a suffix of the input:
star auxiliary, by induction on a length bound. -/
theorem star_suffix_aux {r : Regex}
    (hr : ∀ s rest, rest ∈ mmatch r s → ∃ t, s = t ++ rest) :
    ∀ n s rest, s.length ≤ n → rest ∈ mmatch (.star r) s →
      ∃ t, s = t ++ rest := by
  intro n
  induction n with
  | zero =>
    intro s rest hs h
    have h0 : s = [] := List.length_eq_zero.mp (Nat.le_zero.mp hs)
    subst h0
    rcases mem_star_iff.mp h with rfl | ⟨mid, _, hlt, _⟩
    · exact ⟨[], rfl⟩
    · exact absurd hlt (by simp)
  | succ n ih =>
    intro s rest hs h
    rcases mem_star_iff.mp h with rfl | ⟨mid, hmid, hlt, hrest⟩
    · exact ⟨[], rfl⟩
    · obtain ⟨t1, rfl⟩ := hr s mid hmid
      obtain ⟨t2, ht2⟩ := ih mid rest (by omega) hrest
      exact ⟨t1 ++ t2, by rw [ht2, List.append_assoc]⟩

/-- Every remainder produced by the matcher is a suffix of the input. -/
theorem mmatch_suffix :
    ∀ (r : Regex) (s rest : Str), rest ∈ mmatch r s → ∃ t, s = t ++ rest := by
  intro r
  induction r with
  | eps =>
    intro s rest h
    rcases List.mem_singleton.mp h with rfl
    exact ⟨[], rfl⟩
  | cls p =>
    intro s rest h
    cases s with
    | nil => simp [mmatch] at h
    | cons c s' =>
      simp only [mmatch] at h
      split at h
      · rcases List.mem_singleton.mp h with rfl
        exact ⟨[c], rfl⟩
      · simp at h
  | comp r1 r2 ih1 ih2 =>
    intro s rest h
    simp only [mmatch] at h
    rw [List.mem_flatMap] at h
    obtain ⟨mid, h1, h2⟩ := h
    obtain ⟨t1, rfl⟩ := ih1 s mid h1
    obtain ⟨t2, ht2⟩ := ih2 mid rest h2
    exact ⟨t1 ++ t2, by rw [ht2, List.append_assoc]⟩
  | alt r1 r2 ih1 ih2 =>
    intro s rest h
    simp only [mmatch] at h
    rcases List.mem_append.mp h with h | h
    · exact ih1 s rest h
    · exact ih2 s rest h
  | star r ih => exact fun s rest h => star_suffix_aux ih s.length s rest le_rfl h
  | dollar =>
    intro s rest h
    simp only [mmatch] at h
    split at h
    · rcases List.mem_singleton.mp h with rfl
      exact ⟨[], rfl⟩
    · simp at h

/-- Matching of an anchor-free regex is stable under extending the input
past the matched part: star auxiliary. -/
theorem star_extend_aux {r : Regex}
    (hr : ∀ s rest v, rest ∈ mmatch r s → rest ++ v ∈ mmatch r (s ++ v)) :
    ∀ n s rest v, s.length ≤ n → rest ∈ mmatch (.star r) s →
      rest ++ v ∈ mmatch (.star r) (s ++ v) := by
  intro n
  induction n with
  | zero =>
    intro s rest v hs h
    have h0 : s = [] := List.length_eq_zero.mp (Nat.le_zero.mp hs)
    subst h0
    rcases mem_star_iff.mp h with rfl | ⟨mid, _, hlt, _⟩
    · exact mem_star_iff.mpr (Or.inl (by simp))
    · exact absurd hlt (by simp)
  | succ n ih =>
    intro s rest v hs h
    rcases mem_star_iff.mp h with rfl | ⟨mid, hmid, hlt, hrest⟩
    · exact mem_star_iff.mpr (Or.inl rfl)
    · refine mem_star_iff.mpr (Or.inr ⟨mid ++ v, hr s mid v hmid, ?_, ?_⟩)
      · simp only [List.length_append]
        omega
      · exact ih mid rest v (by omega) hrest

/-- Matching of an anchor-free regex is stable under extending the input
past the matched part. -/
theorem mmatch_extend :
    ∀ (r : Regex), anchorFree r = true →
      ∀ s rest v, rest ∈ mmatch r s → rest ++ v ∈ mmatch r (s ++ v) := by
  intro r
  induction r with
  | eps =>
    intro _ s rest v h
    rcases List.mem_singleton.mp h with rfl
    simp [mmatch]
  | cls p =>
    intro _ s rest v h
    cases s with
    | nil => simp [mmatch] at h
    | cons c s' =>
      simp only [mmatch] at h
      split at h
      · rename_i hpc
        rcases List.mem_singleton.mp h with rfl
        simp [mmatch, hpc]
      · simp at h
  | comp r1 r2 ih1 ih2 =>
    intro hfree s rest v h
    simp only [anchorFree, Bool.and_eq_true] at hfree
    simp only [mmatch] at h ⊢
    rw [List.mem_flatMap] at h ⊢
    obtain ⟨mid, h1, h2⟩ := h
    exact ⟨mid ++ v, ih1 hfree.1 s mid v h1, ih2 hfree.2 mid rest v h2⟩
  | alt r1 r2 ih1 ih2 =>
    intro hfree s rest v h
    simp only [anchorFree, Bool.and_eq_true] at hfree
    simp only [mmatch] at h ⊢
    rcases List.mem_append.mp h with h | h
    · exact List.mem_append.mpr (Or.inl (ih1 hfree.1 s rest v h))
    · exact List.mem_append.mpr (Or.inr (ih2 hfree.2 s rest v h))
  | star r ih =>
    intro hfree s rest v h
    have hfree' : anchorFree r = true := hfree
    exact star_extend_aux (ih hfree') s.length s rest v le_rfl h
  | dollar => intro hfree; simp [anchorFree] at hfree

/-- Splitting lemma for anchor-free regexes: any match splits the input
into a fully matched part and the remainder: star auxiliary. -/
theorem star_split_aux {r : Regex} (hfree : anchorFree r = true)
    (hr : ∀ s rest, rest ∈ mmatch r s →
      ∃ t, s = t ++ rest ∧ [] ∈ mmatch r t) :
    ∀ n s rest, s.length ≤ n → rest ∈ mmatch (.star r) s →
      ∃ t, s = t ++ rest ∧ [] ∈ mmatch (.star r) t := by
  intro n
  induction n with
  | zero =>
    intro s rest hs h
    have h0 : s = [] := List.length_eq_zero.mp (Nat.le_zero.mp hs)
    subst h0
    rcases mem_star_iff.mp h with rfl | ⟨mid, _, hlt, _⟩
    · exact ⟨[], rfl, mem_star_iff.mpr (Or.inl rfl)⟩
    · exact absurd hlt (by simp)
  | succ n ih =>
    intro s rest hs h
    rcases mem_star_iff.mp h with rfl | ⟨mid, hmid, hlt, hrest⟩
    · exact ⟨[], rfl, mem_star_iff.mpr (Or.inl rfl)⟩
    · obtain ⟨t1, rfl, hm1⟩ := hr s mid hmid
      obtain ⟨t2, rfl, hm2⟩ := ih mid rest (by omega) hrest
      have ht1 : t1 ≠ [] := by
        intro h0
        subst h0
        simp at hlt
      refine ⟨t1 ++ t2, by rw [List.append_assoc], ?_⟩
      refine mem_star_iff.mpr (Or.inr ⟨t2, ?_, ?_, hm2⟩)
      · simpa using mmatch_extend r hfree t1 [] t2 hm1
      · simp only [List.length_append]
        cases t1 with
        | nil => exact absurd rfl ht1
        | cons a l => simp

/-- Splitting lemma for anchor-free regexes: any match splits the input
into a fully matched part and the remainder. -/
theorem mmatch_split :
    ∀ (r : Regex), anchorFree r = true →
      ∀ s rest, rest ∈ mmatch r s →
        ∃ t, s = t ++ rest ∧ [] ∈ mmatch r t := by
  intro r
  induction r with
  | eps =>
    intro _ s rest h
    rcases List.mem_singleton.mp h with rfl
    exact ⟨[], rfl, by simp [mmatch]⟩
  | cls p =>
    intro _ s rest h
    cases s with
    | nil => simp [mmatch] at h
    | cons c s' =>
      simp only [mmatch] at h
      split at h
      · rcases List.mem_singleton.mp h with rfl
        exact ⟨[c], rfl, by simp [mmatch, *]⟩
      · simp at h
  | comp r1 r2 ih1 ih2 =>
    intro hfree s rest h
    simp only [anchorFree, Bool.and_eq_true] at hfree
    simp only [mmatch] at h
    rw [List.mem_flatMap] at h
    obtain ⟨mid, h1, h2⟩ := h
    obtain ⟨t1, rfl, hm1⟩ := ih1 hfree.1 s mid h1
    obtain ⟨t2, rfl, hm2⟩ := ih2 hfree.2 mid rest h2
    refine ⟨t1 ++ t2, by rw [List.append_assoc], ?_⟩
    simp only [mmatch]
    rw [List.mem_flatMap]
    exact ⟨t2, by simpa using mmatch_extend r1 hfree.1 t1 [] t2 hm1, hm2⟩
  | alt r1 r2 ih1 ih2 =>
    intro hfree s rest h
    simp only [anchorFree, Bool.and_eq_true] at hfree
    simp only [mmatch] at h
    rcases List.mem_append.mp h with h | h
    · obtain ⟨t, rfl, hm⟩ := ih1 hfree.1 s rest h
      exact ⟨t, rfl, by simp only [mmatch]; exact List.mem_append.mpr (Or.inl hm)⟩
    · obtain ⟨t, rfl, hm⟩ := ih2 hfree.2 s rest h
      exact ⟨t, rfl, by simp only [mmatch]; exact List.mem_append.mpr (Or.inr hm)⟩
  | star r ih =>
    intro hfree s rest h
    have hfree' : anchorFree r = true := hfree
    exact star_split_aux hfree' (ih hfree') s.length s rest le_rfl h
  | dollar => intro hfree; simp [anchorFree] at hfree

/-- A match of `p*` (star of a character class) consumes a block of
characters all satisfying `p`. -/
theorem star_cls_chars {p : Char → Bool} :
    ∀ n s rest, s.length ≤ n → rest ∈ mmatch (.star (.cls p)) s →
      ∃ t, s = t ++ rest ∧ ∀ c ∈ t, p c = true := by
  intro n
  induction n with
  | zero =>
    intro s rest hs h
    have h0 : s = [] := List.length_eq_zero.mp (Nat.le_zero.mp hs)
    subst h0
    rcases mem_star_iff.mp h with rfl | ⟨mid, _, hlt, _⟩
    · exact ⟨[], rfl, by simp⟩
    · exact absurd hlt (by simp)
  | succ n ih =>
    intro s rest hs h
    rcases mem_star_iff.mp h with rfl | ⟨mid, hmid, hlt, hrest⟩
    · exact ⟨[], rfl, by simp⟩
    · cases s with
      | nil => simp [mmatch] at hmid
      | cons c s' =>
        simp only [mmatch] at hmid
        split at hmid
        · rename_i hpc
          rcases List.mem_singleton.mp hmid with rfl
          obtain ⟨t, rfl, hchars⟩ := ih mid rest (by
            simp only [List.length_cons] at hs hlt ⊢
            omega) hrest
          exact ⟨c :: t, rfl, by
            intro d hd
            rcases List.mem_cons.mp hd with rfl | hd
            · exact hpc
            · exact hchars d hd⟩
        · simp at hmid

/-- Inversion for a character class: it consumes exactly one character. -/
theorem mmatch_cls_mem {p : Char → Bool} {s rest : Str}
    (h : rest ∈ mmatch (.cls p) s) : ∃ c, s = c :: rest ∧ p c = true := by
  cases s with
  | nil => simp [mmatch] at h
  | cons c s' =>
    simp only [mmatch] at h
    split at h
    · rename_i hpc
      rcases List.mem_singleton.mp h with rfl
      exact ⟨c, rfl, hpc⟩
    · simp at h

/-- Inversion for the `$` assertion: it consumes nothing and only
succeeds when the remaining input is empty or a single newline. -/
theorem mmatch_dollar_mem {s rest : Str} (h : rest ∈ mmatch .dollar s) :
    rest = s ∧ (s = [] ∨ s = ['\n']) := by
  simp only [mmatch] at h
  split at h
  · rename_i hcond
    exact ⟨List.mem_singleton.mp h, hcond⟩
  · simp at h

/-- Membership in a sequential composition. -/
theorem mem_comp_iff {r1 r2 : Regex} {s rest : Str} :
    rest ∈ mmatch (.comp r1 r2) s ↔
      ∃ mid, mid ∈ mmatch r1 s ∧ rest ∈ mmatch r2 mid := by
  show rest ∈ (mmatch r1 s).flatMap (mmatch r2) ↔ _
  rw [List.mem_flatMap]

/-- The non-blocking factory is the blocking factory run against the
suspending collaborators. -/
theorem aio_from_url_eq_swap (env : Env) (url : Str) (timeout : Nat) :
    aio_from_url env url timeout = from_url env.swapAio url timeout := rfl

/-!
## Facade lemmas
-/

/-- `from_url` after the resolution step: the whole remaining pipeline as
a function of the resolved extraction result. -/
theorem from_url_resolved (env : Env) (url : Str) (t : Nat)
    (er : ExtractResult)
    (h : resolvedExtractW env.extract env.hostFromIp url er) :
    from_url env url t =
      (match env.mkParser (effectiveTld er.suffix) with
       | .error e => .error e
       | .ok core =>
         match env.runQuery (er.domain ++ '.' :: effectiveTld er.suffix)
             core.server t with
         | .error e => .error e
         | .ok raw =>
           .ok { query := some ⟨er.domain ++ '.' :: effectiveTld er.suffix,
                   core.server, t, raw⟩,
                 parser := some ⟨effectiveTld er.suffix, core.server,
                   core.parse raw⟩ }) := by
  rcases h with ⟨hip, rfl⟩ | ⟨hip, host, hh, rfl⟩
  · simp [from_url, hip]
  · simp [from_url, hip, get_hostname_from_ip, hh]

/-- Inversion of a successful `from_url` run along a known resolution
branch. -/
theorem from_url_ok_inv (env : Env) (url : Str) (t : Nat)
    (er : ExtractResult) (w : PyWhoIs)
    (hres : resolvedExtractW env.extract env.hostFromIp url er)
    (hw : from_url env url t = .ok w) :
    ∃ core raw,
      env.mkParser (effectiveTld er.suffix) = .ok core ∧
      env.runQuery (er.domain ++ '.' :: effectiveTld er.suffix)
        core.server t = .ok raw ∧
      w = { query := some ⟨er.domain ++ '.' :: effectiveTld er.suffix,
              core.server, t, raw⟩,
            parser := some ⟨effectiveTld er.suffix, core.server,
              core.parse raw⟩ } := by
  rw [from_url_resolved env url t er hres] at hw
  rcases hmk : env.mkParser (effectiveTld er.suffix) with e | core
  · simp only [hmk] at hw
    exact absurd hw (by simp)
  · simp only [hmk] at hw
    rcases hq : env.runQuery (er.domain ++ '.' :: effectiveTld er.suffix)
        core.server t with e | raw
    · simp only [hq] at hw
      exact absurd hw (by simp)
    · simp only [hq] at hw
      exact ⟨core, raw, rfl, hq, (Except.ok.inj hw).symm⟩

/-- A successful `from_url` run determines a resolution branch. -/
theorem from_url_resolves (env : Env) (url : Str) (t : Nat) (w : PyWhoIs)
    (hw : from_url env url t = .ok w) :
    ∃ er, resolvedExtractW env.extract env.hostFromIp url er := by
  rcases hip : ipMatch (env.extract url).domain with _ | _
  · exact ⟨env.extract url, Or.inl ⟨hip, rfl⟩⟩
  · rcases hh : env.hostFromIp (env.extract url).domain with _ | host
    · exfalso
      simp [from_url, hip, get_hostname_from_ip, hh] at hw
    · exact ⟨env.extract host, Or.inr ⟨hip, host, hh, rfl⟩⟩

/-- The decomposition produced by a successful `IPV4_OR_V6` match:
leading whitespace, an address core, an optional zone, trailing
whitespace, and at most a final newline. -/
theorem ipMatch_decomp (s : Str) (h : ipMatch s = true) :
    ∃ w1 core zone w2 tail,
      s = w1 ++ core ++ zone ++ w2 ++ tail ∧
      (∀ c ∈ w1, isPySpace c = true) ∧
      (∀ c ∈ w2, isPySpace c = true) ∧
      (tail = [] ∨ tail = ['\n']) ∧
      ((([] : Str) ∈ mmatch ipv4Top core ∧ zone = []) ∨
       (([] : Str) ∈ mmatch ipv6Core core ∧
        (zone = [] ∨ ∃ z, zone = '%' :: z ∧ z ≠ []))) := by
  have hne : mmatch IPV4_OR_V6 s ≠ [] := by
    intro h0
    rw [ipMatch, h0] at h
    simp at h
  obtain ⟨rest, hrest⟩ := List.exists_mem_of_ne_nil _ hne
  have hsplit : mmatch IPV4_OR_V6 s =
      mmatch (rseq [wsStar, ipv4Top, wsStar, .dollar]) s ++
      mmatch (rseq [wsStar, ipv6Core, zoneOpt, wsStar, .dollar]) s := rfl
  rw [hsplit] at hrest
  rcases List.mem_append.mp hrest with hA | hB
  · -- IPv4 alternative
    have hA' : rest ∈ mmatch
        (.comp (.star (.cls isPySpace))
          (.comp ipv4Top
            (.comp (.star (.cls isPySpace)) (.comp .dollar .eps)))) s := hA
    obtain ⟨m1, h1, hA2⟩ := mem_comp_iff.mp hA'
    obtain ⟨m2, h2, hA3⟩ := mem_comp_iff.mp hA2
    obtain ⟨m3, h3, hA4⟩ := mem_comp_iff.mp hA3
    obtain ⟨m4, h4, _⟩ := mem_comp_iff.mp hA4
    obtain ⟨_, htail⟩ := mmatch_dollar_mem h4
    obtain ⟨w1, hs1, hw1⟩ := star_cls_chars s.length s m1 le_rfl h1
    obtain ⟨core, hs2, hcore⟩ := mmatch_split ipv4Top (by decide) m1 m2 h2
    obtain ⟨w2, hs3, hw2⟩ := star_cls_chars m2.length m2 m3 le_rfl h3
    refine ⟨w1, core, [], w2, m3, ?_, hw1, hw2, htail,
      Or.inl ⟨hcore, rfl⟩⟩
    rw [hs1, hs2, hs3]
    simp
  · -- IPv6 alternative
    have hB' : rest ∈ mmatch
        (.comp (.star (.cls isPySpace))
          (.comp ipv6Core
            (.comp zoneOpt
              (.comp (.star (.cls isPySpace)) (.comp .dollar .eps))))) s := hB
    obtain ⟨m1, h1, hB2⟩ := mem_comp_iff.mp hB'
    obtain ⟨m2, h2, hB3⟩ := mem_comp_iff.mp hB2
    obtain ⟨m3, h3, hB4⟩ := mem_comp_iff.mp hB3
    obtain ⟨m4, h4, hB5⟩ := mem_comp_iff.mp hB4
    obtain ⟨m5, h5, _⟩ := mem_comp_iff.mp hB5
    obtain ⟨_, htail⟩ := mmatch_dollar_mem h5
    obtain ⟨w1, hs1, hw1⟩ := star_cls_chars s.length s m1 le_rfl h1
    obtain ⟨core, hs2, hcore⟩ := mmatch_split ipv6Core (by decide) m1 m2 h2
    obtain ⟨w2, hs4, hw2⟩ := star_cls_chars m3.length m3 m4 le_rfl h4
    -- analyze the optional zone
    have h3' : m3 ∈ mmatch (rseq [rchar '%', rdotAny, .star rdotAny]) m2 ∨
        m3 = m2 := by
      rcases List.mem_append.mp h3 with h | h
      · exact Or.inl h
      · exact Or.inr (List.mem_singleton.mp h)
    rcases h3' with hz | rfl
    · obtain ⟨zone, hz1, hz2⟩ := mmatch_split
        (rseq [rchar '%', rdotAny, .star rdotAny]) (by decide) m2 m3 hz
      obtain ⟨a1, ha1, hz3⟩ := mem_comp_iff.mp hz2
      obtain ⟨c, hzc, hc⟩ := mmatch_cls_mem ha1
      obtain ⟨a2, ha2, _⟩ := mem_comp_iff.mp hz3
      obtain ⟨c2, hac, _⟩ := mmatch_cls_mem ha2
      have hc' : c = '%' := of_decide_eq_true hc
      subst hc'
      refine ⟨w1, core, '%' :: a1, w2, m4, ?_, hw1, hw2, htail,
        Or.inr ⟨hcore, Or.inr ⟨a1, rfl, by rw [hac]; simp⟩⟩⟩
      rw [hs1, hs2, hz1, hzc, hs4]
      simp
    · refine ⟨w1, core, [], w2, m4, ?_, hw1, hw2, htail,
        Or.inr ⟨hcore, Or.inl rfl⟩⟩
      rw [hs1, hs2, hs4]
      simp

/-- C5: the IP-literal test (`IPV4_OR_V6.match` applied to the extracted
domain portion) is a full-string match against the strict address grammar,
not a prefix match: every accepted string is leading whitespace, then one
core exactly matched by the IPv4 dotted-quad grammar or by the IPv6
grammar (the latter followed by an optional `%`-zone suffix), then
trailing whitespace (`$` additionally tolerates one final newline, itself
whitespace); and a string that merely begins with a valid address but
continues with a non-address character, such as `"1.2.3.4x"`, is
rejected. -/
theorem ip_literal_test_is_full_string_match (s : Str)
    (h : ipMatch s = true) :
    (∃ w1 core zone w2 tail,
      s = w1 ++ core ++ zone ++ w2 ++ tail ∧
      (∀ c ∈ w1, isPySpace c = true) ∧
      (∀ c ∈ w2, isPySpace c = true) ∧
      (tail = [] ∨ tail = ['\n']) ∧
      ((([] : Str) ∈ mmatch ipv4Top core ∧ zone = []) ∨
       (([] : Str) ∈ mmatch ipv6Core core ∧
        (zone = [] ∨ ∃ z, zone = '%' :: z ∧ z ≠ [])))) ∧
    ipMatch ['1', '.', '2', '.', '3', '.', '4', 'x'] = false :=
  ⟨ipMatch_decomp s h, by rfl⟩

/-- Witness for C5 at the concrete accepted input `"::"`. -/
theorem ip_literal_test_is_full_string_match_witness :
    ipMatch [':', ':'] = true ∧
    ((∃ w1 core zone w2 tail,
      [':', ':'] = w1 ++ core ++ zone ++ w2 ++ tail ∧
      (∀ c ∈ w1, isPySpace c = true) ∧
      (∀ c ∈ w2, isPySpace c = true) ∧
      (tail = [] ∨ tail = ['\n']) ∧
      ((([] : Str) ∈ mmatch ipv4Top core ∧ zone = []) ∨
       (([] : Str) ∈ mmatch ipv6Core core ∧
        (zone = [] ∨ ∃ z, zone = '%' :: z ∧ z ≠ [])))) ∧
     ipMatch ['1', '.', '2', '.', '3', '.', '4', 'x'] = false) :=
  ⟨by rfl, ip_literal_test_is_full_string_match [':', ':'] (by rfl)⟩

/-!
## Claim theorems
-/

/-- C1: the effective suffix used as the server-directory key equals the
last dot-separated label of the extracted suffix; a single-label suffix
passes through unchanged; and an `ok` result of the factory records that
effective suffix as the suffix the parser (the server-directory entry)
was built for. -/
theorem effective_suffix_is_last_label (s : Str) (env : Env) (url : Str)
    (t : Nat) (w : PyWhoIs) (p : WhoIsParserObj)
    (hip : ipMatch (env.extract url).domain = false)
    (hw : from_url env url t = .ok w) (hp : w.parser = some p) :
    effectiveTld s = (splitOnDot s).getLastD [] ∧
    ((splitOnDot s).length = 1 → effectiveTld s = s) ∧
    p.tld = effectiveTld (env.extract url).suffix := by
  refine ⟨?_, ?_, ?_⟩
  · by_cases hlt : 1 < (splitOnDot s).length
    · simp [effectiveTld, hlt]
    · have hpos : 0 < (splitOnDot s).length :=
        List.length_pos.mpr (splitOnDot_ne_nil s)
      have hone : (splitOnDot s).length = 1 := by omega
      simp [effectiveTld, hlt, splitOnDot_length_one s hone]
  · intro hone
    simp [effectiveTld, hone]
  · obtain ⟨core, raw, hmk, hq, rfl⟩ := from_url_ok_inv env url t
      (env.extract url) w (Or.inl ⟨hip, rfl⟩) hw
    have hp' : p = ⟨effectiveTld (env.extract url).suffix, core.server,
        core.parse raw⟩ := (Option.some.inj hp).symm
    rw [hp']

/-- Witness for C1: the compound suffix `"co.uk"` collapses to `"uk"`,
and a concrete run records it. -/
theorem effective_suffix_is_last_label_witness :
    ipMatch (wenv.extract []).domain = false ∧
    from_url wenv [] 5 = .ok wres ∧
    wres.parser = some ⟨['u', 'k'], ['s'], []⟩ ∧
    (effectiveTld ['c', 'o', '.', 'u', 'k'] =
        (splitOnDot ['c', 'o', '.', 'u', 'k']).getLastD [] ∧
      ((splitOnDot ['c', 'o', '.', 'u', 'k']).length = 1 →
        effectiveTld ['c', 'o', '.', 'u', 'k'] = ['c', 'o', '.', 'u', 'k']) ∧
      (⟨['u', 'k'], ['s'], []⟩ : WhoIsParserObj).tld =
        effectiveTld (wenv.extract []).suffix) :=
  ⟨by rfl, by rfl, by rfl,
    effective_suffix_is_last_label ['c', 'o', '.', 'u', 'k'] wenv [] 5 wres
      ⟨['u', 'k'], ['s'], []⟩ (by rfl) (by rfl) (by rfl)⟩

/-- C2: when the extracted domain is an IP literal and reverse DNS fails
to yield a hostname, the lookup fails with exactly
`WhoIsQueryError('Could not resolve <ip>')`, in blocking and non-blocking
mode alike; the hostname helpers themselves admit no other outcome on
failure. -/
theorem reverse_dns_failure_yields_resolution_error (env : Env)
    (url : Str) (t : Nat) (f : Str → Option Str) (ip : Str) :
    (f ip = none →
      get_hostname_from_ip f ip =
        .error (.whoIsQueryError (couldNotResolve ip)) ∧
      aio_get_hostname_from_ip f ip =
        .error (.whoIsQueryError (couldNotResolve ip))) ∧
    (ipMatch (env.extract url).domain = true →
      env.hostFromIp (env.extract url).domain = none →
      from_url env url t =
        .error (.whoIsQueryError
          (couldNotResolve (env.extract url).domain))) ∧
    (ipMatch (env.extract url).domain = true →
      env.aioHostFromIp (env.extract url).domain = none →
      aio_from_url env url t =
        .error (.whoIsQueryError
          (couldNotResolve (env.extract url).domain))) := by
  refine ⟨fun h => ⟨?_, ?_⟩, fun hip hh => ?_, fun hip hh => ?_⟩
  · simp [get_hostname_from_ip, h]
  · simp [aio_get_hostname_from_ip, h]
  · simp [from_url, hip, get_hostname_from_ip, hh]
  · simp [aio_from_url, hip, aio_get_hostname_from_ip, hh]

/-- Witness for C2: the IPv6 literal `"::"` with an always-failing
reverse DNS; all hypotheses hold by evaluation. -/
theorem reverse_dns_failure_yields_resolution_error_witness :
    ipMatch (wenvIp.extract []).domain = true ∧
    wenvIp.hostFromIp (wenvIp.extract []).domain = none ∧
    get_hostname_from_ip (fun _ => none) [':', ':'] =
      .error (.whoIsQueryError (couldNotResolve [':', ':'])) ∧
    aio_get_hostname_from_ip (fun _ => none) [':', ':'] =
      .error (.whoIsQueryError (couldNotResolve [':', ':'])) ∧
    from_url wenvIp [] 5 =
      .error (.whoIsQueryError
        (couldNotResolve (wenvIp.extract []).domain)) ∧
    aio_from_url wenvIp [] 5 =
      .error (.whoIsQueryError
        (couldNotResolve (wenvIp.extract []).domain)) := by
  have h := reverse_dns_failure_yields_resolution_error wenvIp [] 5
    (fun _ => none) [':', ':']
  exact ⟨by rfl, rfl, (h.1 rfl).1, (h.1 rfl).2, h.2.1 (by rfl) rfl,
    h.2.2 (by rfl) rfl⟩

/-- C3: with collaborators returning the same values to both, the
non-blocking factory and the blocking factory produce identical results
on every input and timeout. -/
theorem nonblocking_factory_equals_blocking (env : Env) (url : Str)
    (t : Nat) (h1 : env.aioHostFromIp = env.hostFromIp)
    (h2 : env.aioRunQuery = env.runQuery) :
    aio_from_url env url t = from_url env url t := by
  rw [aio_from_url_eq_swap]
  have hswap : env.swapAio = env := by
    cases env
    simp only [Env.swapAio] at h1 h2 ⊢
    rw [h1, h2]
  rw [hswap]

/-- Witness for C3 at a concrete environment with shared collaborators. -/
theorem nonblocking_factory_equals_blocking_witness :
    wenv.aioHostFromIp = wenv.hostFromIp ∧
    wenv.aioRunQuery = wenv.runQuery ∧
    aio_from_url wenv [] 5 = from_url wenv [] 5 :=
  ⟨rfl, rfl, nonblocking_factory_equals_blocking wenv [] 5 rfl rfl⟩

/-- C4: the query target handed to the WHOIS query object is exactly the
extracted domain, a literal dot, and the effective suffix, in both
modes. -/
theorem query_target_is_domain_dot_suffix (env : Env) (url : Str)
    (t : Nat) (w : PyWhoIs) (q : WhoIsQueryObj) :
    (from_url env url t = .ok w → w.query = some q →
      ∃ er, resolvedExtractW env.extract env.hostFromIp url er ∧
        q.domain_and_tld = er.domain ++ '.' :: effectiveTld er.suffix) ∧
    (aio_from_url env url t = .ok w → w.query = some q →
      ∃ er, resolvedExtractW env.extract env.aioHostFromIp url er ∧
        q.domain_and_tld = er.domain ++ '.' :: effectiveTld er.suffix) := by
  constructor
  · intro hw hq
    obtain ⟨er, hres⟩ := from_url_resolves env url t w hw
    obtain ⟨core, raw, _, _, rfl⟩ := from_url_ok_inv env url t er w hres hw
    have hq' : q = ⟨er.domain ++ '.' :: effectiveTld er.suffix,
        core.server, t, raw⟩ := (Option.some.inj hq).symm
    exact ⟨er, hres, by rw [hq']⟩
  · intro hw hq
    rw [aio_from_url_eq_swap] at hw
    obtain ⟨er, hres⟩ := from_url_resolves env.swapAio url t w hw
    obtain ⟨core, raw, _, _, rfl⟩ :=
      from_url_ok_inv env.swapAio url t er w hres hw
    have hq' : q = ⟨er.domain ++ '.' :: effectiveTld er.suffix,
        core.server, t, raw⟩ := (Option.some.inj hq).symm
    exact ⟨er, hres, by rw [hq']⟩

/-- Witness for C4 at a concrete run: `"q"` with suffix `"co.uk"` is
queried as `"q.uk"`; all hypotheses hold by evaluation. -/
theorem query_target_is_domain_dot_suffix_witness :
    from_url wenv [] 5 = .ok wres ∧
    wres.query = some ⟨['q', '.', 'u', 'k'], ['s'], 5, ['r']⟩ ∧
    (∃ er, resolvedExtractW wenv.extract wenv.hostFromIp [] er ∧
      (⟨['q', '.', 'u', 'k'], ['s'], 5, ['r']⟩ :
        WhoIsQueryObj).domain_and_tld =
        er.domain ++ '.' :: effectiveTld er.suffix) ∧
    (∃ er, resolvedExtractW wenv.extract wenv.aioHostFromIp [] er ∧
      (⟨['q', '.', 'u', 'k'], ['s'], 5, ['r']⟩ :
        WhoIsQueryObj).domain_and_tld =
        er.domain ++ '.' :: effectiveTld er.suffix) := by
  have h := query_target_is_domain_dot_suffix wenv [] 5 wres
    ⟨['q', '.', 'u', 'k'], ['s'], 5, ['r']⟩
  exact ⟨by rfl, rfl, h.1 (by rfl) rfl, h.2 (by rfl) rfl⟩

/-- C6: when the domain is an IP literal and reverse DNS succeeds, the
domain and suffix used for the rest of the lookup come from the resolved
hostname's extraction; when the domain is not an IP literal, the factory
result does not depend on the reverse-DNS collaborator at all. -/
theorem reverse_dns_result_replaces_extraction (env : Env)
    (f f2 : Str → Option Str) (url : Str) (t : Nat) (host : Str)
    (w : PyWhoIs) (q : WhoIsQueryObj) (p : WhoIsParserObj) :
    (ipMatch (env.extract url).domain = true →
      env.hostFromIp (env.extract url).domain = some host →
      from_url env url t = .ok w → w.query = some q → w.parser = some p →
      q.domain_and_tld = (env.extract host).domain ++
        '.' :: effectiveTld (env.extract host).suffix ∧
      p.tld = effectiveTld (env.extract host).suffix) ∧
    (ipMatch (env.extract url).domain = true →
      env.aioHostFromIp (env.extract url).domain = some host →
      aio_from_url env url t = .ok w → w.query = some q →
      w.parser = some p →
      q.domain_and_tld = (env.extract host).domain ++
        '.' :: effectiveTld (env.extract host).suffix ∧
      p.tld = effectiveTld (env.extract host).suffix) ∧
    (ipMatch (env.extract url).domain = false →
      from_url { env with hostFromIp := f } url t =
        from_url { env with hostFromIp := f2 } url t) ∧
    (ipMatch (env.extract url).domain = false →
      aio_from_url { env with aioHostFromIp := f } url t =
        aio_from_url { env with aioHostFromIp := f2 } url t) := by
  refine ⟨fun hip hh hw hq hp => ?_, fun hip hh hw hq hp => ?_,
    fun hip => ?_, fun hip => ?_⟩
  · obtain ⟨core, raw, hmk, hqq, rfl⟩ := from_url_ok_inv env url t
      (env.extract host) w (Or.inr ⟨hip, host, hh, rfl⟩) hw
    have hq' : q = ⟨(env.extract host).domain ++
        '.' :: effectiveTld (env.extract host).suffix,
        core.server, t, raw⟩ := (Option.some.inj hq).symm
    have hp' : p = ⟨effectiveTld (env.extract host).suffix, core.server,
        core.parse raw⟩ := (Option.some.inj hp).symm
    exact ⟨by rw [hq'], by rw [hp']⟩
  · rw [aio_from_url_eq_swap] at hw
    obtain ⟨core, raw, hmk, hqq, rfl⟩ := from_url_ok_inv env.swapAio url t
      (env.extract host) w (Or.inr ⟨hip, host, hh, rfl⟩) hw
    have hq' : q = ⟨(env.extract host).domain ++
        '.' :: effectiveTld (env.extract host).suffix,
        core.server, t, raw⟩ := (Option.some.inj hq).symm
    have hp' : p = ⟨effectiveTld (env.extract host).suffix, core.server,
        core.parse raw⟩ := (Option.some.inj hp).symm
    exact ⟨by rw [hq'], by rw [hp']⟩
  · simp [from_url, hip]
  · simp [aio_from_url, hip]

/-- Witness for C6: the literal `"::"` reverse-resolves to `"h"`, which
extracts to `"d"`/`"net"`, and those drive the query; for the non-IP
environment the reverse-DNS collaborator is irrelevant. -/
theorem reverse_dns_result_replaces_extraction_witness :
    ipMatch (wenvIp2.extract []).domain = true ∧
    wenvIp2.hostFromIp (wenvIp2.extract []).domain = some ['h'] ∧
    from_url wenvIp2 [] 5 = .ok wresIp ∧
    ((⟨['d', '.', 'n', 'e', 't'], ['s'], 5, ['r']⟩ :
        WhoIsQueryObj).domain_and_tld =
      (wenvIp2.extract ['h']).domain ++
        '.' :: effectiveTld (wenvIp2.extract ['h']).suffix ∧
      (⟨['n', 'e', 't'], ['s'], []⟩ : WhoIsParserObj).tld =
        effectiveTld (wenvIp2.extract ['h']).suffix) ∧
    ipMatch (wenv.extract []).domain = false ∧
    from_url { wenv with hostFromIp := fun _ => none } [] 5 =
      from_url { wenv with hostFromIp := fun _ => some ['z'] } [] 5 ∧
    aio_from_url { wenv with aioHostFromIp := fun _ => none } [] 5 =
      aio_from_url { wenv with aioHostFromIp := fun _ => some ['z'] } [] 5 := by
  have h1 := reverse_dns_result_replaces_extraction wenvIp2
    (fun _ => none) (fun _ => some ['z']) [] 5 ['h'] wresIp
    ⟨['d', '.', 'n', 'e', 't'], ['s'], 5, ['r']⟩ ⟨['n', 'e', 't'], ['s'], []⟩
  have h2 := reverse_dns_result_replaces_extraction wenv
    (fun _ => none) (fun _ => some ['z']) [] 5 ['h'] wres
    ⟨['q', '.', 'u', 'k'], ['s'], 5, ['r']⟩ ⟨['u', 'k'], ['s'], []⟩
  exact ⟨by rfl, rfl, by rfl,
    h1.1 (by rfl) rfl (by rfl) rfl rfl,
    by rfl, h2.2.2.1 (by rfl), h2.2.2.2 (by rfl)⟩

/-- C7: every collaborator failure — reverse DNS, directory/parser
construction, query execution — propagates unchanged through the factory
to the caller, in both modes; no handler, retry, or partial result
intervenes. -/
theorem component_failures_propagate (env : Env) (url : Str) (t : Nat)
    (er : ExtractResult) (e : WError) (core : ParserCore) :
    (ipMatch (env.extract url).domain = true →
      env.hostFromIp (env.extract url).domain = none →
      from_url env url t =
        .error (.whoIsQueryError
          (couldNotResolve (env.extract url).domain))) ∧
    (resolvedExtractW env.extract env.hostFromIp url er →
      env.mkParser (effectiveTld er.suffix) = .error e →
      from_url env url t = .error e) ∧
    (resolvedExtractW env.extract env.hostFromIp url er →
      env.mkParser (effectiveTld er.suffix) = .ok core →
      env.runQuery (er.domain ++ '.' :: effectiveTld er.suffix)
        core.server t = .error e →
      from_url env url t = .error e) ∧
    (ipMatch (env.extract url).domain = true →
      env.aioHostFromIp (env.extract url).domain = none →
      aio_from_url env url t =
        .error (.whoIsQueryError
          (couldNotResolve (env.extract url).domain))) ∧
    (resolvedExtractW env.extract env.aioHostFromIp url er →
      env.mkParser (effectiveTld er.suffix) = .error e →
      aio_from_url env url t = .error e) ∧
    (resolvedExtractW env.extract env.aioHostFromIp url er →
      env.mkParser (effectiveTld er.suffix) = .ok core →
      env.aioRunQuery (er.domain ++ '.' :: effectiveTld er.suffix)
        core.server t = .error e →
      aio_from_url env url t = .error e) := by
  refine ⟨fun hip hh => ?_, fun hres hmk => ?_, fun hres hmk hq => ?_,
    fun hip hh => ?_, fun hres hmk => ?_, fun hres hmk hq => ?_⟩
  · simp [from_url, hip, get_hostname_from_ip, hh]
  · rw [from_url_resolved env url t er hres]
    simp [hmk]
  · rw [from_url_resolved env url t er hres]
    simp [hmk, hq]
  · simp [aio_from_url, hip, aio_get_hostname_from_ip, hh]
  · rw [aio_from_url_eq_swap, from_url_resolved env.swapAio url t er hres]
    simp [Env.swapAio, hmk]
  · rw [aio_from_url_eq_swap, from_url_resolved env.swapAio url t er hres]
    simp [Env.swapAio, hmk, hq]

/-- Witness for C7: a resolution failure, a directory failure and a query
timeout each surface verbatim, in both modes. -/
theorem component_failures_propagate_witness :
    from_url wenvIp [] 5 =
      .error (.whoIsQueryError (couldNotResolve [':', ':'])) ∧
    aio_from_url wenvIp [] 5 =
      .error (.whoIsQueryError (couldNotResolve [':', ':'])) ∧
    from_url wenvMkErr [] 5 =
      .error (.unsupportedSuffix ['c', 'o', 'm']) ∧
    aio_from_url wenvMkErr [] 5 =
      .error (.unsupportedSuffix ['c', 'o', 'm']) ∧
    from_url wenvQErr [] 5 = .error .timeoutError ∧
    aio_from_url wenvQErr [] 5 = .error .timeoutError := by
  have h1 := component_failures_propagate wenvIp [] 5
    ⟨[], [':', ':'], ['c', 'o', 'm']⟩ .timeoutError ⟨['s'], fun _ => []⟩
  have h2 := component_failures_propagate wenvMkErr [] 5
    ⟨[], ['q'], ['c', 'o', 'm']⟩ (.unsupportedSuffix ['c', 'o', 'm'])
    ⟨['s'], fun _ => []⟩
  have h3 := component_failures_propagate wenvQErr [] 5
    ⟨[], ['q'], ['c', 'o', 'm']⟩ .timeoutError ⟨['s'], fun _ => []⟩
  exact ⟨h1.1 (by rfl) rfl, h1.2.2.2.1 (by rfl) rfl,
    h2.2.1 (Or.inl ⟨by rfl, rfl⟩) rfl,
    h2.2.2.2.2.1 (Or.inl ⟨by rfl, rfl⟩) rfl,
    h3.2.2.1 (Or.inl ⟨by rfl, rfl⟩) rfl rfl,
    h3.2.2.2.2.2 (Or.inl ⟨by rfl, rfl⟩) rfl rfl⟩

/-- C8: on success, the object's `parser_output` is the parse of exactly
the raw text its `query_output` exposes, produced by the single query of
that lookup against the server the directory selected for the recorded
suffix; both properties read back those values. -/
theorem record_parses_exactly_query_output (env : Env) (url : Str)
    (t : Nat) (w : PyWhoIs) (q : WhoIsQueryObj) (p : WhoIsParserObj) :
    (from_url env url t = .ok w → w.query = some q → w.parser = some p →
      ∃ core, env.mkParser p.tld = .ok core ∧
        env.runQuery q.domain_and_tld core.server t = .ok q.query_output ∧
        p.parser_output = core.parse q.query_output ∧
        q.server = core.server ∧ p.server = core.server ∧
        w.query_output = .ok q.query_output ∧
        w.parser_output = .ok (core.parse q.query_output)) ∧
    (aio_from_url env url t = .ok w → w.query = some q →
      w.parser = some p →
      ∃ core, env.mkParser p.tld = .ok core ∧
        env.aioRunQuery q.domain_and_tld core.server t =
          .ok q.query_output ∧
        p.parser_output = core.parse q.query_output ∧
        q.server = core.server ∧ p.server = core.server ∧
        w.query_output = .ok q.query_output ∧
        w.parser_output = .ok (core.parse q.query_output)) := by
  constructor
  · intro hw hq hp
    obtain ⟨er, hres⟩ := from_url_resolves env url t w hw
    obtain ⟨core, raw, hmk, hqq, rfl⟩ :=
      from_url_ok_inv env url t er w hres hw
    have hq' : q = ⟨er.domain ++ '.' :: effectiveTld er.suffix,
        core.server, t, raw⟩ := (Option.some.inj hq).symm
    have hp' : p = ⟨effectiveTld er.suffix, core.server,
        core.parse raw⟩ := (Option.some.inj hp).symm
    subst hq'
    subst hp'
    exact ⟨core, hmk, hqq, rfl, rfl, rfl, rfl, rfl⟩
  · intro hw hq hp
    rw [aio_from_url_eq_swap] at hw
    obtain ⟨er, hres⟩ := from_url_resolves env.swapAio url t w hw
    obtain ⟨core, raw, hmk, hqq, rfl⟩ :=
      from_url_ok_inv env.swapAio url t er w hres hw
    have hq' : q = ⟨er.domain ++ '.' :: effectiveTld er.suffix,
        core.server, t, raw⟩ := (Option.some.inj hq).symm
    have hp' : p = ⟨effectiveTld er.suffix, core.server,
        core.parse raw⟩ := (Option.some.inj hp).symm
    subst hq'
    subst hp'
    exact ⟨core, hmk, hqq, rfl, rfl, rfl, rfl, rfl⟩

/-- Witness for C8 at a concrete successful run. -/
theorem record_parses_exactly_query_output_witness :
    from_url wenv [] 5 = .ok wres ∧
    wres.query = some ⟨['q', '.', 'u', 'k'], ['s'], 5, ['r']⟩ ∧
    wres.parser = some ⟨['u', 'k'], ['s'], []⟩ ∧
    (∃ core, wenv.mkParser
        (⟨['u', 'k'], ['s'], []⟩ : WhoIsParserObj).tld = .ok core ∧
      wenv.runQuery (⟨['q', '.', 'u', 'k'], ['s'], 5, ['r']⟩ :
          WhoIsQueryObj).domain_and_tld core.server 5 =
        .ok (⟨['q', '.', 'u', 'k'], ['s'], 5, ['r']⟩ :
          WhoIsQueryObj).query_output ∧
      (⟨['u', 'k'], ['s'], []⟩ : WhoIsParserObj).parser_output =
        core.parse (⟨['q', '.', 'u', 'k'], ['s'], 5, ['r']⟩ :
          WhoIsQueryObj).query_output ∧
      (⟨['q', '.', 'u', 'k'], ['s'], 5, ['r']⟩ :
        WhoIsQueryObj).server = core.server ∧
      (⟨['u', 'k'], ['s'], []⟩ : WhoIsParserObj).server = core.server ∧
      wres.query_output = .ok (⟨['q', '.', 'u', 'k'], ['s'], 5, ['r']⟩ :
        WhoIsQueryObj).query_output ∧
      wres.parser_output = .ok (core.parse
        (⟨['q', '.', 'u', 'k'], ['s'], 5, ['r']⟩ :
          WhoIsQueryObj).query_output)) := by
  have h := record_parses_exactly_query_output wenv [] 5 wres
    ⟨['q', '.', 'u', 'k'], ['s'], 5, ['r']⟩ ⟨['u', 'k'], ['s'], []⟩
  exact ⟨by rfl, rfl, rfl, h.1 (by rfl) rfl rfl⟩

/-- C9: a directly constructed `_PyWhoIs` has `__query` and `__parser`
set to `None`, so reading either public property raises
`AttributeError` instead of returning a value. -/
theorem direct_construction_properties_raise :
    pywhoisInit.query = none ∧ pywhoisInit.parser = none ∧
    PyWhoIs.query_output pywhoisInit = .error .attributeError ∧
    PyWhoIs.parser_output pywhoisInit = .error .attributeError :=
  ⟨rfl, rfl, rfl, rfl⟩

/-- C10: an input with an empty extracted suffix and a non-IP domain is
not rejected at the resolution layer: the effective suffix stays `""`,
the query target is the domain followed by a trailing dot, and `""` is
the directory key (the suffix the parser is constructed for). -/
theorem empty_suffix_passes_through (env : Env) (url : Str) (t : Nat)
    (core : ParserCore) (raw : Str)
    (hsuf : (env.extract url).suffix = [])
    (hip : ipMatch (env.extract url).domain = false)
    (hmk : env.mkParser [] = .ok core)
    (hq : env.runQuery ((env.extract url).domain ++ ['.'])
      core.server t = .ok raw)
    (haq : env.aioRunQuery ((env.extract url).domain ++ ['.'])
      core.server t = .ok raw) :
    from_url env url t =
      .ok { query := some ⟨(env.extract url).domain ++ ['.'],
              core.server, t, raw⟩,
            parser := some ⟨[], core.server, core.parse raw⟩ } ∧
    aio_from_url env url t =
      .ok { query := some ⟨(env.extract url).domain ++ ['.'],
              core.server, t, raw⟩,
            parser := some ⟨[], core.server, core.parse raw⟩ } := by
  have h0 : effectiveTld (env.extract url).suffix = [] := by
    rw [hsuf]
    rfl
  constructor
  · rw [from_url_resolved env url t (env.extract url) (Or.inl ⟨hip, rfl⟩)]
    rw [h0]
    simp [hmk, hq]
  · rw [aio_from_url_eq_swap,
      from_url_resolved env.swapAio url t (env.extract url)
        (Or.inl ⟨hip, rfl⟩)]
    rw [h0]
    simp [Env.swapAio, hmk, haq]

/-- Witness for C10: domain `"q"` with an empty suffix is queried as
`"q."` with directory key `""`. -/
theorem empty_suffix_passes_through_witness :
    (wenvEmpty.extract []).suffix = [] ∧
    ipMatch (wenvEmpty.extract []).domain = false ∧
    (from_url wenvEmpty [] 5 =
      .ok { query := some ⟨(wenvEmpty.extract []).domain ++ ['.'],
              ['s'], 5, ['r']⟩,
            parser := some ⟨[], ['s'], []⟩ } ∧
     aio_from_url wenvEmpty [] 5 =
      .ok { query := some ⟨(wenvEmpty.extract []).domain ++ ['.'],
              ['s'], 5, ['r']⟩,
            parser := some ⟨[], ['s'], []⟩ }) := by
  have h := empty_suffix_passes_through wenvEmpty [] 5
    ⟨['s'], fun _ => []⟩ ['r'] rfl (by rfl) rfl rfl rfl
  exact ⟨rfl, by rfl, h⟩
